import Mathlib

/-!
Shallow embedding of the `Env` configuration resolver (src: `env.ts`, plus the
thin `node-env.ts` wrapper, which is out of the core's scope).

The environment source is a JS object of type `{ [key: string]: string | undefined }`.
A property can be absent, present and bound to a string, or present and
explicitly bound to `undefined`; we model it as an association list
`List (String × Option String)` where an entry `(k, none)` is a property `k`
explicitly bound to `undefined`.  `Reflect.has` is property existence
(membership of the key, whatever the bound value), `Reflect.get` is the bound
value, with `undefined` (here `none`) for an absent property.

Candidate keys are produced by splitting on the regex `/[_\.]/` (the source's
`NamespacePattern`), concatenating segment lists and `join('_').toUpperCase()`.
JS `String.prototype.split` with a one-character-matching regex keeps empty
fragments: `"".split` gives `[""]`, `"a__b".split` gives `["a","","b"]`.
-/

/-- One delimiter character of the source's `NamespacePattern` regex `/[_\.]/`. -/
def isDelim (c : Char) : Bool := c = '_' || c = '.'

/-- JS `String.prototype.split` on `/[_\.]/`, on the character list: every
maximal run between delimiter occurrences becomes a fragment, empty fragments
included, and the empty list yields one empty fragment. -/
def splitChars : List Char → List (List Char)
  | [] => [[]]
  | c :: cs =>
    if isDelim c then
      [] :: splitChars cs
    else
      match splitChars cs with
      | [] => [[c]]
      | t :: ts => (c :: t) :: ts

/-- `s.split(NamespacePattern)` from the source, as a list of strings. -/
def splitNS (s : String) : List String :=
  (splitChars s.data).map (fun cs => String.mk cs)

/-- The source's `DefaultEnvironment` (`Object.freeze({})`): the empty mapping. -/
def DefaultEnvironment : List (String × Option String) := []

/-- The source's `DefaultNamespace`. -/
def DefaultNamespace : String := ""

/-- The source's `DefaultPrefix`. -/
def DefaultPrefix : String := ""

/-- The source's `DefaultTarget`. -/
def DefaultTarget : String := "development"

/-- JS `String.prototype.toUpperCase`, character-wise upper-casing (the
candidate-key alphabet is ASCII, where JS and `Char.toUpper` agree). -/
def upperStr (s : String) : String := String.mk (s.data.map Char.toUpper)

/-- The environment source: a JS object `{ [key: string]: string | undefined }`.
An entry `(k, some v)` is a property bound to the string `v`; an entry
`(k, none)` is a property explicitly bound to `undefined`; a key with no entry
is an absent property. -/
def Environment : Type := List (String × Option String)

instance : DecidableEq Environment := by
  unfold Environment
  infer_instance

/-- JS own-property lookup on the environment object: `some v` when the
property exists with bound value `v` (`v = none` for an explicit `undefined`
binding), `none` when the property is absent. -/
def Environment.lookup (env : Environment) (k : String) : Option (Option String) :=
  (List.find? (fun p => p.1 = k) env).map (fun p => p.2)

/-- `MissingEnvironmentKeyError`, carrying the candidate keys passed to its
constructor. -/
structure MissingEnvironmentKeyError where
  keys : List String
deriving DecidableEq

instance {ε α : Type} [DecidableEq ε] [DecidableEq α] : DecidableEq (Except ε α) := fun a b =>
  match a, b with
  | Except.ok x, Except.ok y =>
    if h : x = y then Decidable.isTrue (by rw [h]) else Decidable.isFalse (by simpa using h)
  | Except.error x, Except.error y =>
    if h : x = y then Decidable.isTrue (by rw [h]) else Decidable.isFalse (by simpa using h)
  | Except.ok _, Except.error _ => Decidable.isFalse (by simp)
  | Except.error _, Except.ok _ => Decidable.isFalse (by simp)

/-- The error's `message`, built by the source's
`super(keys.join(' or ') + ' must be provided.')` (template literal). -/
def MissingEnvironmentKeyError.message (err : MissingEnvironmentKeyError) : String :=
  String.intercalate " or " err.keys ++ " must be provided."

/-- The `Env` resolver's immutable fields.  The source's field names `prefix`
and `namespace` are Lean keywords, so they are rendered `pfx` and `nsp`. -/
structure Env where
  environment : Environment
  pfx : String
  nsp : String
  target : String
deriving DecidableEq

/-- The source's `EnvOptions` object: each of the four options may be absent
(or explicitly `undefined`), which we render as `none`. -/
structure EnvOptions where
  environment? : Option Environment
  nsp? : Option String
  pfx? : Option String
  target? : Option String

/-- The `Env` constructor: destructure the options object, each field falling
back to its default when the property is absent or `undefined`. -/
def Env.ofOptions (options : EnvOptions) : Env where
  environment := options.environment?.getD DefaultEnvironment
  nsp := options.nsp?.getD DefaultNamespace
  pfx := options.pfx?.getD DefaultPrefix
  target := options.target?.getD DefaultTarget

/-- `get prefixes()`: the prefix split on the namespace pattern. -/
def Env.prefixes (e : Env) : List String := splitNS e.pfx

/-- `get namespaces()`: the namespace split on the namespace pattern. -/
def Env.namespaces (e : Env) : List String := splitNS e.nsp

/-- `get targets()`: the target split on the namespace pattern. -/
def Env.targets (e : Env) : List String := splitNS e.target

/-- `keysFor(key)`: the key split on the namespace pattern (for a string key,
`key.toString()` is the key itself). -/
def Env.keysFor (_e : Env) (key : String) : List String := splitNS key

/-- `withPrefixesNamespacesTargetsKeyFor(keys)`:
`[...prefixes, ...namespaces, ...targets, ...keys].join('_').toUpperCase()`. -/
def Env.withPrefixesNamespacesTargetsKeyFor (e : Env) (keys : List String) : String :=
  upperStr (String.intercalate "_" (e.prefixes ++ e.namespaces ++ e.targets ++ keys))

/-- `withNamespacesTargetsKeyFor(keys)`:
`[...namespaces, ...targets, ...keys].join('_').toUpperCase()`. -/
def Env.withNamespacesTargetsKeyFor (e : Env) (keys : List String) : String :=
  upperStr (String.intercalate "_" (e.namespaces ++ e.targets ++ keys))

/-- `withPrefixesNamespacesKeyFor(keys)`:
`[...prefixes, ...namespaces, ...keys].join('_').toUpperCase()`. -/
def Env.withPrefixesNamespacesKeyFor (e : Env) (keys : List String) : String :=
  upperStr (String.intercalate "_" (e.prefixes ++ e.namespaces ++ keys))

/-- `withNamespacesKeyFor(keys)`: `[...namespaces, ...keys].join('_').toUpperCase()`. -/
def Env.withNamespacesKeyFor (e : Env) (keys : List String) : String :=
  upperStr (String.intercalate "_" (e.namespaces ++ keys))

/-- `withPrefixesKeyFor(keys)`: `[...prefixes, ...keys].join('_').toUpperCase()`. -/
def Env.withPrefixesKeyFor (e : Env) (keys : List String) : String :=
  upperStr (String.intercalate "_" (e.prefixes ++ keys))

/-- `withKeyFor(keys)`: `[...keys].join('_').toUpperCase()`. -/
def Env.withKeyFor (_e : Env) (keys : List String) : String :=
  upperStr (String.intercalate "_" keys)

/-- `fetchKeysFor(keys)`: the six candidate keys, in source order. -/
def Env.fetchKeysFor (e : Env) (keys : List String) : List String :=
  [ e.withPrefixesNamespacesTargetsKeyFor keys,
    e.withNamespacesTargetsKeyFor keys,
    e.withPrefixesNamespacesKeyFor keys,
    e.withNamespacesKeyFor keys,
    e.withPrefixesKeyFor keys,
    e.withKeyFor keys ]

/-- `has(key)`: `Reflect.has(this.environment, key)` — property existence,
regardless of the bound value. -/
def Env.has (e : Env) (key : String) : Bool :=
  (e.environment.lookup key).isSome

/-- `some(keys)`: `keys.some(this.has.bind(this))`. -/
def Env.some (e : Env) (keys : List String) : Bool :=
  keys.any (fun k => e.has k)

/-- `find(keys)`: `keys.find(this.has.bind(this))` — `none` renders the
`undefined` that JS `Array.prototype.find` returns when nothing matches. -/
def Env.find (e : Env) (keys : List String) : Option String :=
  List.find? (fun k => e.has k) keys

/-- `get(key)`: `Reflect.get(this.environment, key)` — the bound value, with
`undefined` (`none`) both for an absent property and for a property explicitly
bound to `undefined`. -/
def Env.get (e : Env) (key : String) : Option String :=
  (e.environment.lookup key).bind id

/-- `fetch(keys)`: return `get(find(keys))` when `some(keys)`, otherwise throw
`MissingEnvironmentKeyError(...keys)`.  Under the `some` guard `find` always
yields a key, so the `getD ""` default is never consulted. -/
def Env.fetch (e : Env) (keys : List String) :
    Except MissingEnvironmentKeyError (Option String) :=
  if e.some keys then
    Except.ok (e.get ((e.find keys).getD ""))
  else
    Except.error ⟨keys⟩

/-- `required(key)`: `fetch(fetchKeysFor(keysFor(key.toString())))`. -/
def Env.required (e : Env) (key : String) :
    Except MissingEnvironmentKeyError (Option String) :=
  e.fetch (e.fetchKeysFor (e.keysFor key))

/-- `optional(key, defaultValue)`: try `required`; on error return
`defaultValue` when it is truthy (provided and not the empty string),
otherwise rethrow the same error. -/
def Env.optional (e : Env) (key : String) (defaultValue : Option String) :
    Except MissingEnvironmentKeyError (Option String) :=
  match e.required key with
  | Except.ok v => Except.ok v
  | Except.error err =>
    match defaultValue with
    | Option.some d => if d = "" then Except.error err else Except.ok (Option.some d)
    | Option.none => Except.error err

/-- `with(target)` (a Lean keyword, hence `withTarget`):
`Reflect.construct(constructor, [this.environment, this.prefix, this.namespace, target])`.
The constructor accepts a single `options` parameter, so it receives
`this.environment` as `options` and the remaining three arguments — including
the requested `target` — are dropped.  Destructuring `environment`,
`namespace`, `prefix`, `target` from the environment object follows JS
semantics: a property that is absent or bound to `undefined` falls back to the
default.  A value present for one of these properties is a string (the
environment's value type); for `namespace`, `prefix` and `target` it is used
as-is.  For `environment` the real code would store that string where a
mapping is expected, a state outside the `Environment` type; the model keeps
the default there, so it is faithful to the code exactly on sources whose
`"environment"` property is absent or `undefined` (every input evaluated in
this file). -/
def Env.withTarget (e : Env) (_target : String) : Env :=
  Env.ofOptions
    { environment? := Option.none
      nsp? := (e.environment.lookup "namespace").bind id
      pfx? := (e.environment.lookup "prefix").bind id
      target? := (e.environment.lookup "target").bind id }

/-- State-passing form of `with`: the pair of the receiver after the call and
the constructed resolver.  The method body writes no field of `this`, so the
receiver's post-state is its pre-state. -/
def Env.withTargetStep (e : Env) (target : String) : Env × Env :=
  (e, e.withTarget target)

/-- The candidate-key list exactly as §8 of the specification words it: for
prefix `P`, namespace `N`, target `T` and logical key `K`, the six upper-cased
underscore-joined concatenations, most specific first:
`P+N+T+K`, `N+T+K`, `P+N+K`, `N+K`, `P+K`, `K`. -/
def specCandidates (P N T K : String) : List String :=
  [ upperStr (String.intercalate "_" (splitNS P ++ splitNS N ++ splitNS T ++ splitNS K)),
    upperStr (String.intercalate "_" (splitNS N ++ splitNS T ++ splitNS K)),
    upperStr (String.intercalate "_" (splitNS P ++ splitNS N ++ splitNS K)),
    upperStr (String.intercalate "_" (splitNS N ++ splitNS K)),
    upperStr (String.intercalate "_" (splitNS P ++ splitNS K)),
    upperStr (String.intercalate "_" (splitNS K)) ]

/-- The configuration of the specification's worked example: prefix `"some"`,
namespace `"project"`, target `"test"`, environment
`{SOME_PROJECT_URL: "a", URL: "b"}`. -/
def eSpecExample : Env :=
  ⟨[("SOME_PROJECT_URL", Option.some "a"), ("URL", Option.some "b")], "some", "project", "test"⟩

/-- A resolver left entirely at its defaults: empty environment, empty prefix
and namespace, target `"development"`. -/
def eDefault : Env := ⟨[], "", "", "development"⟩

/-- An environment whose `URL` property is explicitly bound to `undefined`. -/
def eUndef : Env := ⟨[("URL", Option.none)], "", "", "development"⟩

/-- A fully configured resolver used to exercise `with`. -/
def eWithInput : Env := ⟨[("URL", Option.some "b")], "some", "project", "test"⟩

/-- `List.find?` returns the element at the first index satisfying the
predicate. -/
theorem find?_of_first_index {α : Type} (p : α → Bool) (l : List α) :
    ∀ (i : Nat) (hi : i < l.length),
      p (l.get ⟨i, hi⟩) = true →
      (∀ j, (hj : j < i) → p (l.get ⟨j, Nat.lt_trans hj hi⟩) = false) →
      l.find? p = Option.some (l.get ⟨i, hi⟩) := by
  induction l with
  | nil => intro i hi _ _; exact absurd hi (by simp)
  | cons a t ih =>
    intro i hi hp hfirst
    cases i with
    | zero =>
      have hp' : p a = true := hp
      exact List.find?_cons_of_pos _ hp'
    | succ n =>
      have ha : p a = false := hfirst 0 (Nat.succ_pos n)
      rw [List.find?_cons_of_neg _ (by simp [ha])]
      exact ih n (Nat.lt_of_succ_lt_succ hi) hp
        (fun j hj => hfirst (j + 1) (Nat.succ_lt_succ hj))

/-- C1: for every logical key and every configuration, candidate-key
generation produces exactly six strings, the upper-cased underscore-joined
concatenations `P+N+T+K`, `N+T+K`, `P+N+K`, `N+K`, `P+K`, `K`, in that
order. -/
theorem fetchKeysFor_eq_specCandidates (e : Env) (k : String) :
    e.fetchKeysFor (e.keysFor k) = specCandidates e.pfx e.nsp e.target k
    ∧ (e.fetchKeysFor (e.keysFor k)).length = 6 :=
  ⟨rfl, rfl⟩

/-- C2: whenever some candidate key is present, `required` returns the value
bound to the first present candidate in the generated order, regardless of
what later (less specific) candidates are bound to. -/
theorem required_first_present (e : Env) (k : String) (i : Nat)
    (hi : i < (e.fetchKeysFor (e.keysFor k)).length)
    (hp : e.has ((e.fetchKeysFor (e.keysFor k)).get ⟨i, hi⟩) = true)
    (hfirst : ∀ j, (hj : j < i) →
      e.has ((e.fetchKeysFor (e.keysFor k)).get ⟨j, Nat.lt_trans hj hi⟩) = false) :
    e.required k = Except.ok (e.get ((e.fetchKeysFor (e.keysFor k)).get ⟨i, hi⟩)) := by
  have hfind : (e.fetchKeysFor (e.keysFor k)).find? (fun c => e.has c) =
      Option.some ((e.fetchKeysFor (e.keysFor k)).get ⟨i, hi⟩) :=
    find?_of_first_index (fun c => e.has c) _ i hi hp hfirst
  have hsome : e.some (e.fetchKeysFor (e.keysFor k)) = true := by
    unfold Env.some
    rw [List.any_eq_true]
    exact ⟨_, List.get_mem _ _ _, hp⟩
  simp only [Env.required, Env.fetch, Env.find, hsome, if_true, hfind, Option.getD_some]

/-- C3: `with` evaluated at a fully configured resolver.  The source's `with`
passes `[environment, prefix, namespace, target]` positionally to a
constructor that expects a single options object, so the construction
destructures its options from the environment mapping: the derived resolver
loses the environment, prefix and namespace and ignores the requested target,
coming out all defaults instead of sharing the configuration with the new
target — observably, it no longer resolves `"url"`. -/
theorem withTarget_drops_configuration :
    eWithInput.withTarget "production" = ⟨[], "", "", "development"⟩
    ∧ eWithInput.withTarget "production" ≠
        ⟨eWithInput.environment, eWithInput.pfx, eWithInput.nsp, "production"⟩
    ∧ (eWithInput.withTarget "production").required "url" ≠ eWithInput.required "url" :=
  ⟨by decide, by decide, by decide⟩

/-- C4 counterexample: in the environment `{URL: undefined}` the property
`URL` is explicitly bound to the undefined sentinel, yet lookup treats it as
present — `has` answers true, and `required "url"` resolves through that
binding (returning the undefined value) instead of treating it as missing. -/
theorem undefined_bound_key_is_present :
    eUndef.environment.lookup "URL" = Option.some Option.none
    ∧ eUndef.has "URL" = true
    ∧ eUndef.required "url" = Except.ok Option.none := by decide

/-- C4 amended: lookup treats a candidate as present exactly when the key has
a binding in the mapping, whatever the bound value — a key bound to the empty
string is present, and a key explicitly bound to the absent/undefined sentinel
is present as well; only a key with no binding is not present. -/
theorem has_iff_lookup_isSome (e : Env) (k : String) :
    e.has k = true ↔ ∃ v, e.environment.lookup k = Option.some v := by
  simp [Env.has, Option.isSome_iff_exists]

/-- C5: `required` fails exactly when none of the six candidate keys is
present, and the error's message reports all six attempted candidates joined
with `" or "`. -/
theorem required_missing_iff (e : Env) (k : String) :
    ((∃ err, e.required k = Except.error err) ↔
      ∀ c ∈ e.fetchKeysFor (e.keysFor k), e.has c = false)
    ∧ (e.fetchKeysFor (e.keysFor k)).length = 6
    ∧ ∀ err, e.required k = Except.error err →
        err.message =
          String.intercalate " or " (e.fetchKeysFor (e.keysFor k)) ++ " must be provided." := by
  refine ⟨⟨?_, ?_⟩, rfl, ?_⟩
  · rintro ⟨err, herr⟩ c hc
    by_contra hne
    have hhas : e.has c = true := by
      cases h : e.has c
      · exact absurd h hne
      · rfl
    have hsome : e.some (e.fetchKeysFor (e.keysFor k)) = true := by
      rw [Env.some, List.any_eq_true]
      exact ⟨c, hc, hhas⟩
    rw [Env.required, Env.fetch] at herr
    simp [hsome] at herr
  · intro hall
    have hsome : e.some (e.fetchKeysFor (e.keysFor k)) = false := by
      rw [Env.some]
      simp only [List.any_eq_false]
      intro c hc
      simp [hall c hc]
    refine ⟨⟨e.fetchKeysFor (e.keysFor k)⟩, ?_⟩
    simp [Env.required, Env.fetch, hsome]
  · intro err herr
    rw [Env.required, Env.fetch] at herr
    by_cases hsome : e.some (e.fetchKeysFor (e.keysFor k)) = true
    · simp [hsome] at herr
    · have hs' : e.some (e.fetchKeysFor (e.keysFor k)) = false := by
        simpa using hsome
      simp only [hs', Bool.false_eq_true, if_false, Except.error.injEq] at herr
      rw [← herr]
      rfl

/-- C5 witness: with everything at its defaults and no binding at all,
`required "missing"` fails carrying the six attempted candidates, and the
error message joins them with `" or "`. -/
theorem required_missing_iff_witness :
    eDefault.required "missing" =
      Except.error ⟨["__DEVELOPMENT_MISSING", "_DEVELOPMENT_MISSING", "__MISSING",
        "_MISSING", "_MISSING", "MISSING"]⟩
    ∧ (MissingEnvironmentKeyError.mk ["__DEVELOPMENT_MISSING", "_DEVELOPMENT_MISSING",
        "__MISSING", "_MISSING", "_MISSING", "MISSING"]).message =
      "__DEVELOPMENT_MISSING or _DEVELOPMENT_MISSING or __MISSING or _MISSING or _MISSING or MISSING must be provided." := by
  refine ⟨by decide, ?_⟩
  exact ((required_missing_iff eDefault "missing").2.2 _ (by decide)).trans (by decide)

/-- C2 witness: the specification's worked example — prefix `"some"`,
namespace `"project"`, target `"test"`, environment
`{SOME_PROJECT_URL: "a", URL: "b"}` — resolves `"url"` to `"a"` through the
third candidate `SOME_PROJECT_URL`. -/
theorem required_first_present_witness :
    eSpecExample.required "url" = Except.ok (Option.some "a") :=
  (required_first_present eSpecExample "url" 2 (by decide) (by decide)
    (by decide)).trans (by decide)

/-- C6: `optional` returns `required`'s result when it succeeds; on failure it
returns the default when that is a provided non-empty string, and otherwise
rethrows the same `MissingEnvironmentKeyError`. -/
theorem optional_spec (e : Env) (k : String) (d : Option String) :
    (∀ v, e.required k = Except.ok v → e.optional k d = Except.ok v)
    ∧ (∀ err s, e.required k = Except.error err → d = Option.some s → s ≠ "" →
        e.optional k d = Except.ok (Option.some s))
    ∧ (∀ err, e.required k = Except.error err → (d = Option.none ∨ d = Option.some "") →
        e.optional k d = Except.error err) := by
  refine ⟨?_, ?_, ?_⟩
  · intro v hv
    simp [Env.optional, hv]
  · intro err s herr hd hs
    simp [Env.optional, herr, hd, hs]
  · intro err herr hd
    rcases hd with h | h <;> simp [Env.optional, herr, h]

/-- C6 witness: with no candidate present, an explicitly supplied
empty-string default is not honoured — `optional "missing" ""` rethrows the
`MissingEnvironmentKeyError` instead of returning `""`. -/
theorem optional_spec_witness :
    eDefault.optional "missing" (Option.some "") =
      Except.error ⟨["__DEVELOPMENT_MISSING", "_DEVELOPMENT_MISSING", "__MISSING",
        "_MISSING", "_MISSING", "MISSING"]⟩ :=
  (optional_spec eDefault "missing" (Option.some "")).2.2 _ (by decide) (Or.inr rfl)

/-- C7: splitting the empty string yields one empty segment, so the default
(empty) prefix and namespace each contribute an empty token to every
candidate join, and the underscore join keeps the resulting leading, double
and trailing underscores exactly as the naive split-and-join produces them. -/
theorem split_empty_and_underscore_joins :
    splitNS "" = [""]
    ∧ eDefault.prefixes = [""]
    ∧ eDefault.namespaces = [""]
    ∧ eDefault.fetchKeysFor (eDefault.keysFor "url") =
        ["__DEVELOPMENT_URL", "_DEVELOPMENT_URL", "__URL", "_URL", "_URL", "URL"]
    ∧ eDefault.fetchKeysFor (eDefault.keysFor "") =
        ["__DEVELOPMENT_", "_DEVELOPMENT_", "__", "_", "_", ""] := by decide

/-- C9: calling `with` leaves the receiver unchanged — the method body writes
no field, so after the call the original resolver's four fields and the
results of `required` and `optional` on it are what they were before. -/
theorem withTarget_leaves_original_unchanged (e : Env) (t k : String) (d : Option String) :
    (e.withTargetStep t).1 = e
    ∧ (e.withTargetStep t).1.environment = e.environment
    ∧ (e.withTargetStep t).1.pfx = e.pfx
    ∧ (e.withTargetStep t).1.nsp = e.nsp
    ∧ (e.withTargetStep t).1.target = e.target
    ∧ (e.withTargetStep t).1.required k = e.required k
    ∧ (e.withTargetStep t).1.optional k d = e.optional k d :=
  ⟨rfl, rfl, rfl, rfl, rfl, rfl, rfl⟩

/-- `splitChars` never returns the empty list of fragments. -/
theorem splitChars_ne_nil (cs : List Char) : splitChars cs ≠ [] := by
  cases cs with
  | nil => simp [splitChars]
  | cons c cs =>
    unfold splitChars
    split
    · simp
    · split <;> simp

/-- `splitChars` yields one more fragment than there are delimiter
occurrences. -/
theorem length_splitChars (cs : List Char) :
    (splitChars cs).length = cs.countP isDelim + 1 := by
  induction cs with
  | nil => rfl
  | cons c cs ih =>
    unfold splitChars
    by_cases h : isDelim c = true
    · simp [h, List.countP_cons, ih]
    · have h' : isDelim c = false := by simpa using h
      simp only [h', Bool.false_eq_true, if_false]
      cases hs : splitChars cs with
      | nil => exact absurd hs (splitChars_ne_nil cs)
      | cons t ts =>
        rw [hs] at ih
        simp only [List.length_cons] at ih ⊢
        simp [List.countP_cons, h']
        omega

/-- No fragment produced by `splitChars` contains a delimiter character. -/
theorem splitChars_no_delim (cs : List Char) :
    ∀ t ∈ splitChars cs, ∀ c ∈ t, isDelim c = false := by
  induction cs with
  | nil =>
    intro t ht c hc
    simp [splitChars] at ht
    subst ht
    simp at hc
  | cons a cs ih =>
    intro t ht c hc
    unfold splitChars at ht
    by_cases h : isDelim a = true
    · simp only [h, if_true] at ht
      rcases List.mem_cons.mp ht with rfl | ht'
      · simp at hc
      · exact ih t ht' c hc
    · have h' : isDelim a = false := by simpa using h
      simp only [h', Bool.false_eq_true, if_false] at ht
      cases hs : splitChars cs with
      | nil => exact absurd hs (splitChars_ne_nil cs)
      | cons t0 ts =>
        rw [hs] at ht
        simp only [] at ht
        rcases List.mem_cons.mp ht with rfl | ht'
        · rcases List.mem_cons.mp hc with rfl | hc'
          · exact h'
          · exact ih t0 (hs ▸ List.mem_cons_self t0 ts) c hc'
        · exact ih t (hs ▸ List.mem_cons_of_mem t0 ht') c hc

/-- C8 counterexample: segment splitting does produce empty tokens — the
empty string splits to one empty token, and adjacent delimiters leave an
empty token in the middle. -/
theorem splitNS_empty_token :
    ("" ∈ splitNS "") ∧ splitNS "a__b" = ["a", "", "b"] := by decide

/-- C8 amended: segment splitting on `_` and `.` produces the ordered
sequence of the fragments between delimiter occurrences — no token contains a
delimiter character and there is exactly one more token than there are
delimiter occurrences — but tokens can be empty (for the empty string, or
around leading, trailing or adjacent delimiters). -/
theorem splitNS_tokens (s : String) :
    (∀ t ∈ splitNS s, ∀ c ∈ t.data, isDelim c = false)
    ∧ (splitNS s).length = s.data.countP isDelim + 1 := by
  constructor
  · intro t ht c hc
    rw [splitNS, List.mem_map] at ht
    obtain ⟨cs, hcs, rfl⟩ := ht
    exact splitChars_no_delim _ cs hcs c hc
  · rw [splitNS, List.length_map]
    exact length_splitChars _

/-- C8 amended witness: each character of the token `"a"` of `"a.b"` is not a
delimiter, and `"a.b"` splits into two tokens. -/
theorem splitNS_tokens_witness :
    isDelim 'a' = false ∧ (splitNS "a.b").length = 2 := by
  constructor
  · exact (splitNS_tokens "a.b").1 "a" (by decide) 'a' (by decide)
  · exact ((splitNS_tokens "a.b").2).trans (by decide)

/-- C10: when the prefix and the namespace split into the same segments (the
defaults included), candidates #4 and #5 coincide, the six-entry candidate
list has a duplicate and at most five distinct keys, and a failing `fetch`
reports the duplicated candidate twice. -/
theorem duplicate_candidates_of_prefix_eq_namespace (e : Env) (keys : List String)
    (h : e.prefixes = e.namespaces) :
    e.withNamespacesKeyFor keys = e.withPrefixesKeyFor keys
    ∧ ¬ (e.fetchKeysFor keys).Nodup
    ∧ (e.fetchKeysFor keys).toFinset.card ≤ 5
    ∧ (∀ err, e.fetch (e.fetchKeysFor keys) = Except.error err →
        2 ≤ err.keys.count (e.withNamespacesKeyFor keys)) := by
  have heq : e.withPrefixesKeyFor keys = e.withNamespacesKeyFor keys := by
    rw [Env.withPrefixesKeyFor, Env.withNamespacesKeyFor, h]
  have hcount : 2 ≤ (e.fetchKeysFor keys).count (e.withNamespacesKeyFor keys) := by
    have hL : e.fetchKeysFor keys =
        [e.withPrefixesNamespacesTargetsKeyFor keys, e.withNamespacesTargetsKeyFor keys,
          e.withPrefixesNamespacesKeyFor keys] ++
          e.withNamespacesKeyFor keys :: e.withNamespacesKeyFor keys ::
          [e.withKeyFor keys] := by
      rw [Env.fetchKeysFor, heq]
      rfl
    rw [hL, List.count_append, List.count_cons_self, List.count_cons_self]
    omega
  refine ⟨heq.symm, ?_, ?_, ?_⟩
  · intro hnd
    have := List.nodup_iff_count_le_one.mp hnd (e.withNamespacesKeyFor keys)
    omega
  · have hsub : (e.fetchKeysFor keys).toFinset ⊆
        ([e.withPrefixesNamespacesTargetsKeyFor keys, e.withNamespacesTargetsKeyFor keys,
          e.withPrefixesNamespacesKeyFor keys, e.withNamespacesKeyFor keys,
          e.withKeyFor keys] : List String).toFinset := by
      intro a ha
      rw [List.mem_toFinset] at ha ⊢
      rw [Env.fetchKeysFor] at ha
      simp only [heq, List.mem_cons, List.not_mem_nil, or_false] at ha ⊢
      tauto
    exact le_trans (Finset.card_le_card hsub) (le_trans (List.toFinset_card_le _) (by simp))
  · intro err herr
    rw [Env.fetch] at herr
    by_cases hs : e.some (e.fetchKeysFor keys) = true
    · simp [hs] at herr
    · have hs' : e.some (e.fetchKeysFor keys) = false := by simpa using hs
      simp only [hs', Bool.false_eq_true, if_false, Except.error.injEq] at herr
      rw [← herr]
      exact hcount

/-- C10 witness: with the default empty prefix and namespace, candidates #4
and #5 for `"url"` coincide and the list holds at most five distinct keys. -/
theorem duplicate_candidates_witness :
    eDefault.withNamespacesKeyFor ["url"] = eDefault.withPrefixesKeyFor ["url"]
    ∧ (eDefault.fetchKeysFor ["url"]).toFinset.card ≤ 5 :=
  ⟨(duplicate_candidates_of_prefix_eq_namespace eDefault ["url"] (by decide)).1,
    (duplicate_candidates_of_prefix_eq_namespace eDefault ["url"] (by decide)).2.2.1⟩
